import Mathlib

/-!
# Genesis: a verification development of the core engine

Shallow embedding, in Lean 4, of the core pure logic of the Genesis
stress-testing / test-data-generation tool:

* `src/differ.ts`    — output normalization and comparison,
* `src/formatter.ts` — structured-data-to-input-text formatting,
* `src/compilation.ts` (and the equivalent private methods of
  `src/maker.ts`) — compilation fingerprinting and the artifact cache,
* `src/checker.ts`   — the stress-test loop, and
* `src/maker.ts`     — output-directory safety checks.

Strings are modelled as `List Char` so that every operation is a plain
structural recursion that the kernel can evaluate.  Filesystem state,
child-process behaviour, and the SHA-256 digest of `node:crypto` are
treated as explicit inputs of the embedded functions (the digest as a
function parameter, file existence as a list of paths, the persisted
cache as an optional association list).
-/

namespace Genesis

/-- Character strings, modelled as lists of characters. -/
abbrev Str := List Char

/-! ## Text primitives shared by the embedded modules -/

/-- The whitespace test used by JavaScript's `String.prototype.trimEnd`
(restricted to the ASCII whitespace characters that can appear here). -/
def isJsWhitespace (c : Char) : Bool :=
  c = ' ' || c = '\t' || c = '\n' || c = '\r' || c = '\x0b' || c = '\x0c'

/-- `text.replace(/\r\n/g, '\n')`: global, left-to-right, non-overlapping
replacement of the two-character sequence CRLF by LF. -/
def replaceCRLF : Str → Str
  | [] => []
  | [c] => [c]
  | c :: d :: rest =>
    if c = '\r' ∧ d = '\n' then '\n' :: replaceCRLF rest
    else c :: replaceCRLF (d :: rest)

/-- Helper for `splitOnChar`: accumulates the current (reversed) chunk. -/
def splitOnCharAux (sep : Char) (cur : Str) : Str → List Str
  | [] => [cur.reverse]
  | c :: rest =>
    if c = sep then cur.reverse :: splitOnCharAux sep [] rest
    else splitOnCharAux sep (c :: cur) rest

/-- `text.split(sep)` for a single-character separator.  On the empty
string it returns `[[]]`, exactly as JavaScript's `''.split(sep)`
returns `['']`. -/
def splitOnChar (sep : Char) (s : Str) : List Str :=
  splitOnCharAux sep [] s

/-- `line.trimEnd()`: drop trailing whitespace. -/
def trimEnd (s : Str) : Str :=
  (s.reverse.dropWhile isJsWhitespace).reverse

/-! ## `src/differ.ts` -/

/-- The two comparison modes of `src/differ.ts` (`CompareMode` in
`src/types.ts`). -/
inductive CompareMode where
  | exact
  | normalized
deriving DecidableEq

/-- `normalizeOutput` from `src/differ.ts`: empty (falsy) text gives `[]`;
otherwise replace CRLF by LF, split into lines, remove all empty lines,
and right-trim each remaining line. -/
def normalizeOutput (text : Str) : List Str :=
  if text = [] then []
  else
    (((splitOnChar '\n' (replaceCRLF text)).filter
      (fun line => !line.isEmpty)).map trimEnd)

/-- The index loop at the end of `compareOutputs`: pairwise equality of
two line sequences. -/
def pairwiseEqLines : List Str → List Str → Bool
  | [], [] => true
  | a :: as, b :: bs => (a == b) && pairwiseEqLines as bs
  | _, _ => false

/-- `compareOutputs` from `src/differ.ts`: byte equality in `exact` mode;
in `normalized` mode, normalize both sides, reject on differing line
counts, then compare the lines pairwise. -/
def compareOutputs (stdOut myOut : Str) (mode : CompareMode) : Bool :=
  match mode with
  | .exact => stdOut == myOut
  | .normalized =>
    let stdLines := normalizeOutput stdOut
    let myLines := normalizeOutput myOut
    if stdLines.length ≠ myLines.length then false
    else pairwiseEqLines stdLines myLines

/-! ## `src/formatter.ts`

The formatter receives an arbitrary JavaScript value.  We model the
values that can reach it — numbers (integral, as produced by the data
generator), strings, `null`, `undefined`, and arbitrarily nested arrays
— as a mutual inductive pair so that all stringification functions are
plain structural recursions. -/

mutual
/-- A JavaScript value as seen by `formatData`. -/
inductive JValue where
  | num : Int → JValue
  | str : Str → JValue
  | jnull : JValue
  | undef : JValue
  | arr : JList → JValue
/-- A JavaScript array of `JValue`s. -/
inductive JList where
  | nil : JList
  | cons : JValue → JList → JList
end

/-- View a `JList` as a Lean list. -/
def jlistToList : JList → List JValue
  | .nil => []
  | .cons v rest => v :: jlistToList rest

/-- Build a `JList` from a Lean list. -/
def jlistOf : List JValue → JList
  | [] => .nil
  | v :: rest => .cons v (jlistOf rest)

/-- JavaScript's decimal rendering `String(i)` of an integral number. -/
def intChars (i : Int) : Str :=
  match i with
  | .ofNat n => Nat.toDigits 10 n
  | .negSucc n => '-' :: Nat.toDigits 10 (n + 1)

mutual
/-- JavaScript's `String(v)`: numbers render in decimal, strings are
themselves, `null`/`undefined` render as their names, and an array
renders as its `join(',')`. -/
def jsString : JValue → Str
  | .num i => intChars i
  | .str s => s
  | .jnull => ['n', 'u', 'l', 'l']
  | .undef => ['u', 'n', 'd', 'e', 'f', 'i', 'n', 'e', 'd']
  | .arr xs => joinJList [','] xs
termination_by structural v => v

/-- JavaScript's `Array.prototype.join(sep)`: each element is rendered
with `String(...)`, except that `null` and `undefined` render as the
empty string; the pieces are interleaved with `sep`. -/
def joinJList (sep : Str) : JList → Str
  | .nil => []
  | .cons v .nil =>
    (match v with
     | .jnull => []
     | .undef => []
     | v => jsString v)
  | .cons v (.cons w rest) =>
    (match v with
     | .jnull => []
     | .undef => []
     | v => jsString v) ++ sep ++ joinJList sep (.cons w rest)
termination_by structural l => l
end

/-- The element-rendering rule of `Array.prototype.join`:
`null`/`undefined` become empty, everything else is `String(v)`. -/
def joinElemStr : JValue → Str
  | .jnull => []
  | .undef => []
  | v => jsString v

/-- `join` over a Lean list of values (the in-memory `lines` array of
`formatData`, finally joined with a separator). -/
def joinValues (sep : Str) : List JValue → Str
  | [] => []
  | [v] => joinElemStr v
  | v :: w :: rest => joinElemStr v ++ sep ++ joinValues sep (w :: rest)

/-- `formatLine` from `src/formatter.ts`: an array is space-joined, any
other value is `String(item)`. -/
def formatLine : JValue → Str
  | .arr xs => joinJList [' '] xs
  | v => jsString v

/-- The body of the `for (const item of data)` loop of `formatData`:
the values pushed into `lines` for one top-level element.  A matrix
(array with an array first entry) contributes one formatted line per
row; an array with a string first entry is spliced in verbatim; every
other element contributes the single line `formatLine(item)`. -/
def itemLines : JValue → List JValue
  | .arr (.cons (.arr a) rest) =>
    (jlistToList (.cons (.arr a) rest)).map (fun row => .str (formatLine row))
  | .arr (.cons (.str s) rest) => jlistToList (.cons (.str s) rest)
  | item => [.str (formatLine item)]

/-- The accumulated `lines` array after the loop of `formatData`. -/
def collectLines : List JValue → List JValue
  | [] => []
  | item :: rest => itemLines item ++ collectLines rest

/-- `formatData` from `src/formatter.ts`: `null`/`undefined` give the
empty string, a non-array gives `formatLine(data)`, and an array gives
the loop-collected lines joined with a newline. -/
def formatData : JValue → Str
  | .jnull => []
  | .undef => []
  | .arr data => joinValues ['\n'] (collectLines (jlistToList data))
  | v => formatLine v

/-! ## `src/compilation.ts` — fingerprinting and the artifact cache

The effectful pieces (filesystem, child processes, `node:crypto`) are
explicit inputs: the SHA-256 digest is a function parameter `sha`, the
persisted `cache.json` is an `Option` association list (`none` models a
missing or corrupt file), the set of paths existing on disk is a list,
and success of the compiler invocation a boolean. -/

/-- The hidden working directory `TEMP_DIR = '.genesis'`. -/
def TEMP_DIR : Str := ".genesis".data

/-- One record of the persisted cache map (interface `CacheMetadata`). -/
structure CacheEntry where
  hash : Str
  executablePath : Str
deriving DecidableEq

/-- The persisted cache map: association list from cache key to entry
(JSON object keys are unique). -/
abbrev CacheMetadata := List (Str × CacheEntry)

/-- Lookup `cache[cacheKey]` in the JSON map. -/
def lookupCache : CacheMetadata → Str → Option CacheEntry
  | [], _ => none
  | (k, e) :: rest, key => if k = key then some e else lookupCache rest key

/-- `cache[cacheKey] = entry`: replace an existing binding, else append. -/
def insertCache : CacheMetadata → Str → CacheEntry → CacheMetadata
  | [], key, entry => [(key, entry)]
  | (k, e) :: rest, key, entry =>
    if k = key then (k, entry) :: rest
    else (k, e) :: insertCache rest key entry

/-- `DEFAULT_COMPILER_CONFIGS` from `src/compiler.ts`, as the lookup
with the `g++` fallback performed by `getCompilationProfile`. -/
def defaultCompilerFlags (compilerCommand : Str) : List Str :=
  if compilerCommand = "clang++".data then
    ["-O2".data, "-std=c++17".data, "-Wall".data, "-Wno-unused-result".data]
  else
    ["-O2".data, "-std=c++17".data, "-Wall".data]

/-- `finalFlags = [...baseConfig.flags, ...(userFlags || [])]`. -/
def finalFlags (compilerCommand : Str) (userFlags : List Str) : List Str :=
  defaultCompilerFlags compilerCommand ++ userFlags

/-- `finalFlags.join('')`: concatenation with no separator. -/
def concatAll : List Str → Str
  | [] => []
  | x :: rest => x ++ concatAll rest

/-- `uniqueProfile = sourceContent.toString() + compilerCommand +
finalFlags.join('')` from `getCompilationProfile`. -/
def uniqueProfile (sourceContent compilerCommand : Str) (flags : List Str) : Str :=
  sourceContent ++ compilerCommand ++ concatAll flags

/-- The fingerprint of `getCompilationProfile`: the digest (`sha`, the
hex SHA-256 of `node:crypto` in the source) of the unique profile built
from the current source bytes, the compiler command, and the final
flag list. -/
def profileHash (sha : Str → Str) (sourceContent compilerCommand : Str)
    (userFlags : List Str) : Str :=
  sha (uniqueProfile sourceContent compilerCommand
    (finalFlags compilerCommand userFlags))

/-- The cache key `` `${sourceFile}-${compilerCommand}` ``. -/
def cacheKey (sourceFile compilerCommand : Str) : Str :=
  sourceFile ++ "-".data ++ compilerCommand

/-- `findCachedExecutable` from `src/compilation.ts`: a missing or
corrupt cache file yields no hit; otherwise the entry under the key
must exist, carry the current hash, and its artifact must still exist
on disk. -/
def findCachedExecutable (cacheFile : Option CacheMetadata)
    (existing : List Str) (key currentHash : Str) : Option Str :=
  match cacheFile with
  | none => none
  | some cache =>
    match lookupCache cache key with
    | none => none
    | some entry =>
      if entry.hash = currentHash ∧ entry.executablePath ∈ existing then
        some entry.executablePath
      else none

/-- `path.parse(sourceFile).name`: the last path component with its
final extension removed (a leading dot alone does not start an
extension, as in Node's `path.parse`). -/
def parseName (sourceFile : Str) : Str :=
  let base := (splitOnChar '/' sourceFile).getLastD []
  match base.reverse.dropWhile (fun c => c ≠ '.') with
  | [] => base
  | [_] => base
  | _ :: rest => rest.reverse

/-- The artifact path chosen by `executeCompilation`:
`` path.join(TEMP_DIR, `${executableName}-${hash.substring(0,8)}`) ``
plus `.exe` on Windows. -/
def executablePathFor (isWin32 : Bool) (sourceFile hash : Str) : Str :=
  TEMP_DIR ++ "/".data ++ parseName sourceFile ++ "-".data ++ hash.take 8 ++
    (if isWin32 then ".exe".data else [])

/-- Result of one compile request (`getExecutable`). -/
inductive CompileOutcome where
  | cacheHit (path : Str)
  | recompiled (path : Str) (newCache : CacheMetadata)
  | compileFailed
deriving DecidableEq

/-- The pure decision core of `getExecutable` from `src/compilation.ts`
(identical to `compileSolutionWithCache` of `src/maker.ts`): recompute
the fingerprint from the current source bytes, look the key up in the
cache, return the cached artifact on a hit, and otherwise compile
(success reported by `compileOk`), then write the new cache entry. -/
def getExecutable (sha : Str → Str) (isWin32 compileOk : Bool)
    (sourceFile sourceContent compilerCommand : Str) (userFlags : List Str)
    (cacheFile : Option CacheMetadata) (existing : List Str) : CompileOutcome :=
  match findCachedExecutable cacheFile existing
      (cacheKey sourceFile compilerCommand)
      (profileHash sha sourceContent compilerCommand userFlags) with
  | some p => .cacheHit p
  | none =>
    if compileOk then
      .recompiled
        (executablePathFor isWin32 sourceFile
          (profileHash sha sourceContent compilerCommand userFlags))
        (insertCache (cacheFile.getD [])
          (cacheKey sourceFile compilerCommand)
          ⟨profileHash sha sourceContent compilerCommand userFlags,
           executablePathFor isWin32 sourceFile
             (profileHash sha sourceContent compilerCommand userFlags)⟩)
    else .compileFailed

/-! ## `src/checker.ts` — the stress-test loop

The user generator and the two programs are explicit inputs: the
generator as a function from the iteration number to the structured
value it returns on that call, and each program as a function from its
stdin text to the observed child-process result.  The loop model also
records, for claim checking, every `execa` invocation together with the
timeout option it was given. -/

/-- Result of the untimed `execa(stdPath, { input })` call: success with
captured stdout, or a caught error with captured stderr. -/
inductive StdResult where
  | ok (out : Str)
  | crash (stderr : Str)

/-- Result of the timed `execa(targetPath, { input, timeout })` call:
success, a caught error with `timedOut` set, or any other caught
error with captured stderr. -/
inductive TargetResult where
  | ok (out : Str)
  | timedOut
  | crash (stderr : Str)

/-- The generator and the two compiled programs, as observed behaviour. -/
structure CheckerEnv where
  gen : Nat → JValue
  std : Str → StdResult
  target : Str → TargetResult

/-- The failure classifications of `reportFailure`. -/
inductive FailKind where
  | WA
  | RE
  | TLE
  | RE_STD
deriving DecidableEq

/-- The three texts handed to `reportFailure` (and then written to the
three fixed artifact files). -/
structure Artifacts where
  input : Str
  stdText : Str
  myText : Str
deriving DecidableEq

/-- Result of `GenesisChecker.run`. -/
inductive CheckOutcome where
  | failed (iter : Nat) (kind : FailKind) (art : Artifacts)
  | allPassed
deriving DecidableEq

/-- Which of the two programs an `execa` call ran. -/
inductive Prog where
  | std
  | target
deriving DecidableEq

/-- One recorded `execa` program invocation of the checking loop:
the iteration it belongs to, the program, and the timeout option
passed to `execa` (`none` when no timeout option was given). -/
structure Invocation where
  iter : Nat
  prog : Prog
  timeoutOpt : Option Nat
deriving DecidableEq

/-- One iteration of the checking loop of `GenesisChecker.run`: format
the generator's value, run std untimed (a crash halts with `RE_STD`),
run target with the configured timeout (timeout halts with `TLE`, a
crash with `RE`), compare the outputs (a mismatch halts with `WA`).
Returns the halt data, if any, and the recorded invocations. -/
def runStep (env : CheckerEnv) (timeoutMs : Nat) (mode : CompareMode)
    (i : Nat) : Option (FailKind × Artifacts) × List Invocation :=
  match env.std (formatData (env.gen i)) with
  | .crash e =>
    (some (.RE_STD, ⟨formatData (env.gen i), e, []⟩), [⟨i, .std, none⟩])
  | .ok stdOutput =>
    match env.target (formatData (env.gen i)) with
    | .ok myOutput =>
      if compareOutputs stdOutput myOutput mode then
        (none, [⟨i, .std, none⟩, ⟨i, .target, some timeoutMs⟩])
      else
        (some (.WA, ⟨formatData (env.gen i), stdOutput, myOutput⟩),
         [⟨i, .std, none⟩, ⟨i, .target, some timeoutMs⟩])
    | .timedOut =>
      (some (.TLE, ⟨formatData (env.gen i), stdOutput,
          "[Time Limit Exceeded]".data⟩),
       [⟨i, .std, none⟩, ⟨i, .target, some timeoutMs⟩])
    | .crash e =>
      (some (.RE, ⟨formatData (env.gen i), stdOutput,
          if e = [] then "[No stderr]".data else e⟩),
       [⟨i, .std, none⟩, ⟨i, .target, some timeoutMs⟩])

/-- The `for (let i = 1; i <= count; i++)` loop, starting at iteration
`i` with `fuel` iterations left: any halt stops the loop at once and
yields the failure; exhausting the budget yields overall success. -/
def runFrom (env : CheckerEnv) (timeoutMs : Nat) (mode : CompareMode) :
    Nat → Nat → CheckOutcome × List Invocation
  | _, 0 => (.allPassed, [])
  | i, fuel + 1 =>
    match runStep env timeoutMs mode i with
    | (some (kind, art), invs) => (.failed i kind art, invs)
    | (none, invs) =>
      ((runFrom env timeoutMs mode (i + 1) fuel).1,
       invs ++ (runFrom env timeoutMs mode (i + 1) fuel).2)

/-- `GenesisChecker.run(count)` after successful compilation: the loop
over iterations `1..count`. -/
def checkerRun (env : CheckerEnv) (timeoutMs : Nat) (mode : CompareMode)
    (count : Nat) : CheckOutcome × List Invocation :=
  runFrom env timeoutMs mode 1 count

/-- The configurable timeout state of `GenesisChecker`. -/
structure CheckerState where
  timeoutMs : Nat
deriving DecidableEq

/-- The freshly constructed checker: `timeoutMs = 5000`. -/
def checkerInit : CheckerState := ⟨5000⟩

/-- `GenesisChecker.timeout(ms)`: only positive values update the
configured timeout. -/
def checkerSetTimeout (st : CheckerState) (ms : Int) : CheckerState :=
  if ms > 0 then ⟨ms.toNat⟩ else st

/-- The default comparison mode (`DEFAULTS.compareMode`). -/
def defaultCompareMode : CompareMode := .normalized

/-- `FAIL_ARTIFACTS.in` from `src/checker.ts`. -/
def failArtifactIn : Str := "_checker_fail.in".data

/-- `FAIL_ARTIFACTS.std` from `src/checker.ts`. -/
def failArtifactStd : Str := "_checker_std.out".data

/-- `FAIL_ARTIFACTS.my` from `src/checker.ts`. -/
def failArtifactMy : Str := "_checker_my.out".data

/-- The three `fs.writeFile` calls of `reportFailure`, in order: the
fixed filenames paired with the texts written to them. -/
def reportFailureWrites (a : Artifacts) : List (Str × Str) :=
  [(failArtifactIn, a.input), (failArtifactStd, a.stdText),
   (failArtifactMy, a.myText)]

/-- `fs.writeFile(name, data)`: the file's new content is exactly
`data`, independent of any previous content (overwrite, not append). -/
def applyWrite (fsState : Str → Str) (w : Str × Str) : Str → Str :=
  fun name => if name = w.1 then w.2 else fsState name

/-- Apply a sequence of writes to a filesystem state in order. -/
def applyWrites (fsState : Str → Str) : List (Str × Str) → Str → Str
  | [] => fsState
  | w :: rest => applyWrites (applyWrite fsState w) rest

/-! ## `src/maker.ts` — case execution and output-directory safety -/

/-- The `execa(executablePath, { input: formattedInput })` call of
`generateSingleCase`: the program, its stdin text, and the timeout
option given to `execa` (none — Maker case runs are untimed). -/
structure MakerInvocation where
  exePath : Str
  input : Str
  timeoutOpt : Option Nat
deriving DecidableEq

/-- The child-process invocation performed by `generateSingleCase` for
one case: the compiled solution is fed the formatted generator value
with no timeout option. -/
def makerCaseInvocation (exePath : Str) (genValue : JValue) : MakerInvocation :=
  ⟨exePath, formatData genValue, none⟩

/-- Normalize a list of path segments (Node posix semantics for an
absolute path): empty and `.` segments vanish, `..` pops the previous
segment (or vanishes at the root).  `acc` holds the kept segments in
reverse. -/
def normSegsAux (acc : List Str) : List Str → List Str
  | [] => acc.reverse
  | s :: rest =>
    if s = [] ∨ s = ".".data then normSegsAux acc rest
    else if s = "..".data then
      match acc with
      | [] => normSegsAux [] rest
      | _ :: t => normSegsAux t rest
    else normSegsAux (s :: acc) rest

/-- Join path segments below the root. -/
def joinSegs : List Str → Str
  | [] => []
  | [s] => s
  | s :: t :: rest => s ++ "/".data ++ joinSegs (t :: rest)

/-- Model of Node's `path.resolve(p)` (posix) against the absolute
current working directory `cwd`: an absolute `p` is normalized on its
own, a relative one is resolved against `cwd`. -/
def resolvePath (cwd p : Str) : Str :=
  let base := match p with
    | '/' :: _ => p
    | _ => cwd ++ "/".data ++ p
  let segs := normSegsAux [] (splitOnChar '/' base)
  "/".data ++ joinSegs segs

/-- Model of Node's `path.basename(p)` (posix): the last non-empty
component, ignoring trailing slashes; a path of slashes only gives
`"/"`. -/
def basename (p : Str) : Str :=
  let q := (p.reverse.dropWhile (fun c => c = '/')).reverse
  if q = [] then (if p = [] then [] else "/".data)
  else (splitOnChar '/' q).getLastD []

/-- `FORBIDDEN_NAMES` from `cleanupOutputDirectory`. -/
def FORBIDDEN_NAMES : List Str :=
  ["src".data, "node_modules".data, ".git".data, ".".data, "..".data,
   "/".data]

/-- Result of `cleanupOutputDirectory`'s safety checks. -/
inductive CleanupResult where
  | refusedForbiddenName
  | refusedProjectRoot
  | refusedOutsideRoot
  | cleaned
deriving DecidableEq

/-- `GenesisMaker.cleanupOutputDirectory`: refuse when the directory's
basename is forbidden, when its resolved path equals the project root,
or when the resolved path does not start with the project root; only
otherwise recursively remove the directory.  The second component lists
the paths deleted (`fs.rm` runs only on the all-checks-passed branch). -/
def cleanupOutputDirectory (projectRoot dir : Str) : CleanupResult × List Str :=
  if basename dir ∈ FORBIDDEN_NAMES then (.refusedForbiddenName, [])
  else
    let absoluteOutputDir := resolvePath projectRoot dir
    if absoluteOutputDir = projectRoot then (.refusedProjectRoot, [])
    else if ¬ List.isPrefixOf projectRoot absoluteOutputDir then
      (.refusedOutsideRoot, [])
    else (.cleaned, [dir])

/-- The claim-side containment notion: the resolved output directory
lies inside the project root when the root's normalized segments are a
prefix of the directory's (so `/project-evil` is outside `/project`). -/
def insideRoot (projectRoot p : Str) : Bool :=
  List.isPrefixOf (normSegsAux [] (splitOnChar '/' projectRoot))
    (normSegsAux [] (splitOnChar '/' p))

/-- How far `GenesisMaker.generate` gets, as a function of the cleanup
verdict and the compilation result: a cleanup refusal returns before
`compileSolutionWithCache` is ever called. -/
inductive GeneratePhase where
  | stoppedAtCleanup
  | stoppedAtCompile
  | generatedCases
deriving DecidableEq

/-- The control-flow skeleton of `GenesisMaker.generate`: cleanup first
(a refusal stops the run), then compilation (a failure stops the run),
then case generation. -/
def generatePhase (projectRoot dir : Str) (compileResult : Option Str) :
    GeneratePhase :=
  if (cleanupOutputDirectory projectRoot dir).1 ≠ .cleaned then
    .stoppedAtCleanup
  else
    match compileResult with
    | none => .stoppedAtCompile
    | some _ => .generatedCases

/-! ## Helper lemmas -/

/-- Replacing CRLF is the identity on text free of carriage returns. -/
theorem replaceCRLF_of_no_cr : ∀ l : Str, '\r' ∉ l → replaceCRLF l = l
  | [], _ => rfl
  | [_], _ => rfl
  | c :: d :: rest, h => by
    have hc : c ≠ '\r' := fun e => h (by simp [e])
    have htl : '\r' ∉ d :: rest := fun m => h (List.mem_cons_of_mem _ m)
    show (if c = '\r' ∧ d = '\n' then '\n' :: replaceCRLF rest
      else c :: replaceCRLF (d :: rest)) = c :: d :: rest
    rw [if_neg (fun hand => hc hand.1)]
    exact congrArg (c :: ·) (replaceCRLF_of_no_cr (d :: rest) htl)

/-- Splitting a chunk free of the separator followed by a separator
emits the accumulated chunk and continues after the separator. -/
theorem splitOnCharAux_chunk (sep : Char) :
    ∀ (w : Str), sep ∉ w → ∀ (cur rest : Str),
      splitOnCharAux sep cur (w ++ sep :: rest) =
        (cur.reverse ++ w) :: splitOnCharAux sep [] rest := by
  intro w
  induction w with
  | nil =>
    intro _ cur rest
    simp [splitOnCharAux]
  | cons c cs ih =>
    intro hw cur rest
    have hc : ¬ c = sep := fun e => hw (by simp [e])
    have hcs : sep ∉ cs := fun m => hw (List.mem_cons_of_mem _ m)
    show (if c = sep then cur.reverse :: splitOnCharAux sep [] (cs ++ sep :: rest)
      else splitOnCharAux sep (c :: cur) (cs ++ sep :: rest)) = _
    rw [if_neg hc, ih hcs (c :: cur) rest]
    simp

/-- A line all of whose characters are whitespace right-trims to the
empty line. -/
theorem trimEnd_all_ws (w : Str) (hw : ∀ c ∈ w, isJsWhitespace c) :
    trimEnd w = [] := by
  unfold trimEnd
  rw [List.dropWhile_eq_nil_iff.mpr (fun c hc => hw c (List.mem_reverse.mp hc))]
  rfl

/-- The pairwise line-comparison loop of `compareOutputs` decides list
equality. -/
theorem pairwiseEqLines_iff : ∀ a b : List Str,
    pairwiseEqLines a b = true ↔ a = b
  | [], [] => by simp [pairwiseEqLines]
  | [], _ :: _ => by simp [pairwiseEqLines]
  | _ :: _, [] => by simp [pairwiseEqLines]
  | x :: xs, y :: ys => by
    simp [pairwiseEqLines, pairwiseEqLines_iff xs ys]

/-- `normalized` comparison succeeds exactly on equal normalizations. -/
theorem compareOutputs_normalized_iff (s t : Str) :
    compareOutputs s t .normalized = true ↔
      normalizeOutput s = normalizeOutput t := by
  show (if (normalizeOutput s).length ≠ (normalizeOutput t).length then false
    else pairwiseEqLines (normalizeOutput s) (normalizeOutput t)) = true ↔ _
  by_cases h : (normalizeOutput s).length = (normalizeOutput t).length
  · rw [if_neg (by simp [h]), pairwiseEqLines_iff]
  · rw [if_pos h]
    constructor
    · intro hfalse
      exact absurd hfalse (by simp)
    · intro hEq
      exact absurd (congrArg List.length hEq) h

/-- Concatenation with no separator distributes over list append. -/
theorem concatAll_append : ∀ a b : List Str,
    concatAll (a ++ b) = concatAll a ++ concatAll b
  | [], _ => rfl
  | x :: rest, b => by
    simp [concatAll, concatAll_append rest b]

/-- The `lines` array accumulated by `formatData` is the flattening of
the per-element line lists. -/
theorem collectLines_eq_join : ∀ items : List JValue,
    collectLines items = (items.map itemLines).flatten
  | [] => rfl
  | item :: rest => by
    simp [collectLines, collectLines_eq_join rest]

/-- Unfolding equation for `findCachedExecutable` on a parsed cache. -/
theorem findCachedExecutable_some (cache : CacheMetadata)
    (existing : List Str) (key h : Str) :
    findCachedExecutable (some cache) existing key h =
      (match lookupCache cache key with
       | none => none
       | some entry =>
         if entry.hash = h ∧ entry.executablePath ∈ existing then
           some entry.executablePath
         else none) := rfl

/-- Inversion for cache lookup: a hit means the cache file parsed, the
key was bound, the stored hash matched, and the artifact still exists. -/
theorem findCachedExecutable_eq_some_iff (cacheFile : Option CacheMetadata)
    (existing : List Str) (key h p : Str) :
    findCachedExecutable cacheFile existing key h = some p ↔
      ∃ cache entry, cacheFile = some cache ∧
        lookupCache cache key = some entry ∧
        entry.hash = h ∧ entry.executablePath = p ∧ p ∈ existing := by
  cases cacheFile with
  | none =>
    constructor
    · intro hp
      exact Option.noConfusion hp
    · rintro ⟨cache, entry, hc, _⟩
      exact Option.noConfusion hc
  | some cache =>
    rw [findCachedExecutable_some]
    cases hlk : lookupCache cache key with
    | none =>
      constructor
      · intro hp
        exact Option.noConfusion hp
      · rintro ⟨c2, e2, hc2, he2, _⟩
        cases Option.some_injective _ hc2
        rw [hlk] at he2
        exact Option.noConfusion he2
    | some entry =>
      show (if entry.hash = h ∧ entry.executablePath ∈ existing then
        some entry.executablePath else none) = some p ↔ _
      by_cases hcond : entry.hash = h ∧ entry.executablePath ∈ existing
      · rw [if_pos hcond]
        constructor
        · intro hp
          have hpe : entry.executablePath = p := Option.some_injective _ hp
          exact ⟨cache, entry, rfl, hlk, hcond.1, hpe, hpe ▸ hcond.2⟩
        · rintro ⟨c2, e2, hc2, he2, _, hp2, _⟩
          cases Option.some_injective _ hc2
          rw [hlk] at he2
          cases Option.some_injective _ he2
          rw [hp2]
      · rw [if_neg hcond]
        constructor
        · intro hp
          exact Option.noConfusion hp
        · rintro ⟨c2, e2, hc2, he2, hh2, hp2, hmem2⟩
          cases Option.some_injective _ hc2
          rw [hlk] at he2
          cases Option.some_injective _ he2
          exact absurd ⟨hh2, hp2 ▸ hmem2⟩ hcond

/-- Inversion for cache misses: no hit means a missing or corrupt cache
file, a missing entry, a stale hash, or a vanished artifact. -/
theorem findCachedExecutable_eq_none_iff (cacheFile : Option CacheMetadata)
    (existing : List Str) (key h : Str) :
    findCachedExecutable cacheFile existing key h = none ↔
      cacheFile = none ∨
      ∃ cache, cacheFile = some cache ∧
        (lookupCache cache key = none ∨
         ∃ entry, lookupCache cache key = some entry ∧
           (entry.hash ≠ h ∨ entry.executablePath ∉ existing)) := by
  cases cacheFile with
  | none =>
    constructor
    · intro _
      exact Or.inl rfl
    · intro _
      rfl
  | some cache =>
    rw [findCachedExecutable_some]
    cases hlk : lookupCache cache key with
    | none =>
      constructor
      · intro _
        exact Or.inr ⟨cache, rfl, Or.inl hlk⟩
      · intro _
        rfl
    | some entry =>
      show (if entry.hash = h ∧ entry.executablePath ∈ existing then
        some entry.executablePath else none) = none ↔ _
      by_cases hcond : entry.hash = h ∧ entry.executablePath ∈ existing
      · rw [if_pos hcond]
        constructor
        · intro hfalse
          exact Option.noConfusion hfalse
        · rintro (hnone | ⟨c2, hc2, hbad⟩)
          · exact Option.noConfusion hnone
          · cases Option.some_injective _ hc2
            rcases hbad with hb | ⟨e2, he2, hb⟩
            · rw [hlk] at hb
              exact Option.noConfusion hb
            · rw [hlk] at he2
              cases Option.some_injective _ he2
              rcases hb with hb | hb
              · exact absurd hcond.1 hb
              · exact absurd hcond.2 hb
      · rw [if_neg hcond]
        constructor
        · intro _
          refine Or.inr ⟨cache, rfl, Or.inr ⟨entry, hlk, ?_⟩⟩
          by_cases hh : entry.hash = h
          · exact Or.inr (fun hmem => hcond ⟨hh, hmem⟩)
          · exact Or.inl hh
        · intro _
          rfl

/-- `insertCache` binds the inserted key to the inserted entry. -/
theorem lookupCache_insertCache : ∀ (cache : CacheMetadata) (key : Str)
    (entry : CacheEntry),
    lookupCache (insertCache cache key entry) key = some entry
  | [], key, entry => by
    show lookupCache [(key, entry)] key = some entry
    show (if key = key then some entry else lookupCache [] key) = some entry
    rw [if_pos rfl]
  | (k, e) :: rest, key, entry => by
    by_cases hk : k = key
    · show lookupCache (if k = key then (k, entry) :: rest
        else (k, e) :: insertCache rest key entry) key = some entry
      rw [if_pos hk]
      show (if k = key then some entry else lookupCache rest key) = some entry
      rw [if_pos hk]
    · show lookupCache (if k = key then (k, entry) :: rest
        else (k, e) :: insertCache rest key entry) key = some entry
      rw [if_neg hk]
      show (if k = key then some e
        else lookupCache (insertCache rest key entry) key) = some entry
      rw [if_neg hk]
      exact lookupCache_insertCache rest key entry

/-- Unfolding equation for `getExecutable`. -/
theorem getExecutable_def (sha : Str → Str) (isWin ok : Bool)
    (src content cmd : Str) (uf : List Str)
    (cacheFile : Option CacheMetadata) (existing : List Str) :
    getExecutable sha isWin ok src content cmd uf cacheFile existing =
      (match findCachedExecutable cacheFile existing (cacheKey src cmd)
          (profileHash sha content cmd uf) with
       | some p => .cacheHit p
       | none =>
         if ok then
           .recompiled
             (executablePathFor isWin src (profileHash sha content cmd uf))
             (insertCache (cacheFile.getD []) (cacheKey src cmd)
               ⟨profileHash sha content cmd uf,
                executablePathFor isWin src (profileHash sha content cmd uf)⟩)
         else .compileFailed) := rfl

/-- Under an injective digest, changing the source text changes the
fingerprint. -/
theorem profileHash_ne_of_content_ne (sha : Str → Str)
    (hinj : Function.Injective sha) (content2 content cmd : Str)
    (uf : List Str) (hne : content2 ≠ content) :
    profileHash sha content2 cmd uf ≠ profileHash sha content cmd uf := by
  intro he
  apply hne
  have hu := hinj he
  unfold uniqueProfile at hu
  exact List.append_cancel_right (List.append_cancel_right hu)

/-- Under an injective digest, changing the compiler command without
changing its length changes the fingerprint. -/
theorem profileHash_ne_of_cmd_ne (sha : Str → Str)
    (hinj : Function.Injective sha) (content cmd2 cmd : Str) (uf : List Str)
    (hlen : cmd2.length = cmd.length) (hne : cmd2 ≠ cmd) :
    profileHash sha content cmd2 uf ≠ profileHash sha content cmd uf := by
  intro he
  apply hne
  have hu := hinj he
  unfold uniqueProfile at hu
  rw [List.append_assoc, List.append_assoc] at hu
  have h2 : cmd2 ++ concatAll (finalFlags cmd2 uf) =
      cmd ++ concatAll (finalFlags cmd uf) := List.append_cancel_left hu
  have h3 := congrArg (List.take cmd2.length) h2
  rw [List.take_left] at h3
  rw [hlen] at h3
  rw [List.take_left] at h3
  exact h3

/-- Under an injective digest, changing one user flag changes the
fingerprint. -/
theorem profileHash_ne_of_flag_ne (sha : Str → Str)
    (hinj : Function.Injective sha) (content cmd : Str) (A B : List Str)
    (f f2 : Str) (hne : f2 ≠ f) :
    profileHash sha content cmd (A ++ f2 :: B) ≠
      profileHash sha content cmd (A ++ f :: B) := by
  intro he
  apply hne
  have hu := hinj he
  unfold uniqueProfile at hu
  rw [List.append_assoc, List.append_assoc] at hu
  have h1 : concatAll (finalFlags cmd (A ++ f2 :: B)) =
      concatAll (finalFlags cmd (A ++ f :: B)) :=
    List.append_cancel_left (List.append_cancel_left hu)
  unfold finalFlags at h1
  simp only [concatAll_append] at h1
  have h2 := List.append_cancel_left h1
  have h3 := List.append_cancel_left h2
  have h4 : f2 ++ concatAll B = f ++ concatAll B := h3
  exact List.append_cancel_right h4

/-- Artifact names embed the 8-character fingerprint prefix faithfully:
distinct prefixes give distinct artifact names. -/
theorem executablePathFor_ne_of_take8_ne (isWin : Bool) (src h1 h2 : Str)
    (hne : h1.take 8 ≠ h2.take 8) :
    executablePathFor isWin src h1 ≠ executablePathFor isWin src h2 := by
  intro he
  apply hne
  unfold executablePathFor at he
  have e1 := List.append_cancel_right he
  exact List.append_cancel_left e1

/-- Every invocation recorded by one loop iteration belongs to that
iteration and is either the untimed std run or the timed target run. -/
theorem runStep_mem_invs (env : CheckerEnv) (tm : Nat) (mode : CompareMode)
    (i : Nat) (inv : Invocation) (hmem : inv ∈ (runStep env tm mode i).2) :
    inv = ⟨i, Prog.std, none⟩ ∨ inv = ⟨i, Prog.target, some tm⟩ := by
  unfold runStep at hmem
  split at hmem
  · simp at hmem
    exact Or.inl hmem
  · split at hmem
    · split at hmem
      · simpa using hmem
      · simpa using hmem
    · simpa using hmem
    · simpa using hmem

/-- Any failure produced by one loop iteration records that iteration's
formatted generator value as its input artifact. -/
theorem runStep_some_input (env : CheckerEnv) (tm : Nat) (mode : CompareMode)
    (i : Nat) (kind : FailKind) (art : Artifacts)
    (hsome : (runStep env tm mode i).1 = some (kind, art)) :
    art.input = formatData (env.gen i) := by
  unfold runStep at hsome
  split at hsome
  · simp at hsome
    rw [← hsome.2]
  · split at hsome
    · split at hsome
      · exact Option.noConfusion hsome
      · simp at hsome
        rw [← hsome.2]
    · simp at hsome
      rw [← hsome.2]
    · simp at hsome
      rw [← hsome.2]

/-- Every invocation recorded by the loop carries no timeout option for
std and exactly the configured timeout for target. -/
theorem runFrom_invs_timeout (env : CheckerEnv) (tm : Nat)
    (mode : CompareMode) : ∀ (fuel i : Nat) (inv : Invocation),
    inv ∈ (runFrom env tm mode i fuel).2 →
    (inv.prog = .std → inv.timeoutOpt = none) ∧
    (inv.prog = .target → inv.timeoutOpt = some tm) := by
  intro fuel
  induction fuel with
  | zero =>
    intro i inv hmem
    simp [runFrom] at hmem
  | succ n ih =>
    intro i inv hmem
    unfold runFrom at hmem
    cases hstep : runStep env tm mode i with
    | mk fst snd =>
      rw [hstep] at hmem
      cases fst with
      | some ka =>
        cases ka with
        | mk kind art =>
          have hm2 : inv ∈ (runStep env tm mode i).2 := by
            rw [hstep]
            simpa using hmem
          rcases runStep_mem_invs env tm mode i inv hm2 with h | h <;> subst h
          · exact ⟨fun _ => rfl, fun hpr => Prog.noConfusion hpr⟩
          · exact ⟨fun hpr => Prog.noConfusion hpr, fun _ => rfl⟩
      | none =>
        have hmem2 : inv ∈ snd ++ (runFrom env tm mode (i + 1) n).2 := by
          simpa using hmem
        rcases List.mem_append.mp hmem2 with hm | hm
        · have hm2 : inv ∈ (runStep env tm mode i).2 := by
            rw [hstep]
            exact hm
          rcases runStep_mem_invs env tm mode i inv hm2 with h | h <;>
            subst h
          · exact ⟨fun _ => rfl, fun hpr => Prog.noConfusion hpr⟩
          · exact ⟨fun hpr => Prog.noConfusion hpr, fun _ => rfl⟩
        · exact ih (i + 1) inv hm

/-- If the loop fails, the failing iteration lies in the executed range
and its step produced exactly the reported failure. -/
theorem runFrom_failed_inv (env : CheckerEnv) (tm : Nat)
    (mode : CompareMode) : ∀ (fuel i k : Nat) (kind : FailKind)
    (art : Artifacts),
    (runFrom env tm mode i fuel).1 = .failed k kind art →
    i ≤ k ∧ k < i + fuel ∧ (runStep env tm mode k).1 = some (kind, art) := by
  intro fuel
  induction fuel with
  | zero =>
    intro i k kind art hrun
    exact CheckOutcome.noConfusion hrun
  | succ n ih =>
    intro i k kind art hrun
    unfold runFrom at hrun
    cases hstep : runStep env tm mode i with
    | mk fst snd =>
      rw [hstep] at hrun
      cases fst with
      | some ka =>
        cases ka with
        | mk kind0 art0 =>
          have h0 : CheckOutcome.failed i kind0 art0 = .failed k kind art :=
            hrun
          injection h0 with hik hkk hartk
          subst hik
          subst hkk
          subst hartk
          refine ⟨le_rfl, by omega, ?_⟩
          rw [hstep]
      | none =>
        have h0 : (runFrom env tm mode (i + 1) n).1 = .failed k kind art :=
          hrun
        obtain ⟨h1, h2, h3⟩ := ih (i + 1) k kind art h0
        exact ⟨by omega, by omega, h3⟩

/-- If every earlier step passes and step `k` fails, the loop started
at `i ≤ k` with enough fuel reports exactly that failure and records
invocations only for iterations up to `k`. -/
theorem runFrom_halt (env : CheckerEnv) (tm : Nat) (mode : CompareMode) :
    ∀ (fuel i k : Nat) (kind : FailKind) (art : Artifacts),
    i ≤ k → k < i + fuel →
    (∀ j, i ≤ j → j < k → (runStep env tm mode j).1 = none) →
    (runStep env tm mode k).1 = some (kind, art) →
    (runFrom env tm mode i fuel).1 = .failed k kind art ∧
    (∀ inv ∈ (runFrom env tm mode i fuel).2, inv.iter ≤ k) := by
  intro fuel
  induction fuel with
  | zero =>
    intro i k kind art hik hk _ _
    omega
  | succ n ih =>
    intro i k kind art hik hk hpass hfail
    by_cases hek : i = k
    · subst hek
      cases hstep : runStep env tm mode i with
      | mk fst snd =>
        have hfst : fst = some (kind, art) := by
          rw [hstep] at hfail
          exact hfail
        subst hfst
        unfold runFrom
        rw [hstep]
        refine ⟨rfl, ?_⟩
        intro inv hmem
        have hm2 : inv ∈ (runStep env tm mode i).2 := by
          rw [hstep]
          simpa using hmem
        rcases runStep_mem_invs env tm mode i inv hm2 with h | h <;>
          (subst h; exact le_rfl)
    · have hik2 : i < k := lt_of_le_of_ne hik hek
      have hstepi : (runStep env tm mode i).1 = none := hpass i le_rfl hik2
      cases hstep : runStep env tm mode i with
      | mk fst snd =>
        have hfst : fst = none := by
          rw [hstep] at hstepi
          exact hstepi
        subst hfst
        unfold runFrom
        rw [hstep]
        have ihres := ih (i + 1) k kind art (by omega) (by omega)
          (fun j hj1 hj2 => hpass j (by omega) hj2) hfail
        refine ⟨ihres.1, ?_⟩
        intro inv hmem
        have hmem2 : inv ∈ snd ++ (runFrom env tm mode (i + 1) n).2 := by
          simpa using hmem
        rcases List.mem_append.mp hmem2 with hm | hm
        · have hm2 : inv ∈ (runStep env tm mode i).2 := by
            rw [hstep]
            exact hm
          rcases runStep_mem_invs env tm mode i inv hm2 with h | h <;>
            (subst h; exact le_of_lt hik2)
        · exact ihres.2 inv hm

/-- If every step in range passes, the loop reports overall success. -/
theorem runFrom_all_pass (env : CheckerEnv) (tm : Nat) (mode : CompareMode) :
    ∀ (fuel i : Nat),
    (∀ j, i ≤ j → j < i + fuel → (runStep env tm mode j).1 = none) →
    (runFrom env tm mode i fuel).1 = .allPassed := by
  intro fuel
  induction fuel with
  | zero =>
    intro i _
    rfl
  | succ n ih =>
    intro i hpass
    have hstepi : (runStep env tm mode i).1 = none :=
      hpass i le_rfl (by omega)
    cases hstep : runStep env tm mode i with
    | mk fst snd =>
      have hfst : fst = none := by
        rw [hstep] at hstepi
        exact hstepi
      subst hfst
      unfold runFrom
      rw [hstep]
      exact ih (i + 1) (fun j hj1 hj2 => hpass j (by omega) (by omega))

/-- One loop iteration depends on the environment only through the
generator value at that iteration and the two program behaviours. -/
theorem runStep_congr (env env2 : CheckerEnv) (tm : Nat)
    (mode : CompareMode) (i : Nat) (hgen : env2.gen i = env.gen i)
    (hstd : env2.std = env.std) (htg : env2.target = env.target) :
    runStep env2 tm mode i = runStep env tm mode i := by
  unfold runStep
  rw [hgen, hstd, htg]

/-- A loop that halts by iteration `k` never consults the generator
beyond `k`: its result is unchanged under any generator agreeing up to
`k`. -/
theorem runFrom_congr_upto (env env2 : CheckerEnv) (tm : Nat)
    (mode : CompareMode) (hstd : env2.std = env.std)
    (htg : env2.target = env.target) :
    ∀ (fuel i k : Nat) (kind : FailKind) (art : Artifacts),
    i ≤ k →
    (∀ j, j ≤ k → env2.gen j = env.gen j) →
    (∀ j, i ≤ j → j < k → (runStep env tm mode j).1 = none) →
    (runStep env tm mode k).1 = some (kind, art) →
    runFrom env2 tm mode i fuel = runFrom env tm mode i fuel := by
  intro fuel
  induction fuel with
  | zero =>
    intro i k kind art _ _ _ _
    rfl
  | succ n ih =>
    intro i k kind art hik hgen hpass hfail
    by_cases hek : i = k
    · subst hek
      unfold runFrom
      rw [runStep_congr env env2 tm mode i (hgen i le_rfl) hstd htg]
      cases hstep : runStep env tm mode i with
      | mk fst snd =>
        have hfst : fst = some (kind, art) := by
          rw [hstep] at hfail
          exact hfail
        subst hfst
        rfl
    · have hik2 : i < k := lt_of_le_of_ne hik hek
      have hstepi : (runStep env tm mode i).1 = none :=
        hpass i le_rfl hik2
      unfold runFrom
      rw [runStep_congr env env2 tm mode i
        (hgen i (by omega)) hstd htg]
      cases hstep : runStep env tm mode i with
      | mk fst snd =>
        have hfst : fst = none := by
          rw [hstep] at hstepi
          exact hstepi
        subst hfst
        rw [ih (i + 1) k kind art (by omega) hgen
          (fun j hj1 hj2 => hpass j (by omega) hj2) hfail]

/-! ## Claim theorems -/

/-- Claim C4: `compareOutputs` in `exact` mode succeeds exactly on
byte-identical strings; in `normalized` mode each side is normalized by
replacing CRLF with LF, splitting into lines, dropping all empty lines,
and right-trimming each remaining line, and the comparison succeeds
exactly when the two normalized line sequences are equal (equal length
and pairwise equal).  In particular comparison of a string with itself
in `exact` mode succeeds, normalized comparison ignores a trailing
space and a blank line, and normalized comparison distinguishes
genuinely different lines. -/
theorem compareOutputs_spec_C4 :
    (∀ s t : Str, compareOutputs s t .exact = true ↔ s = t)
    ∧ (∀ s : Str, normalizeOutput s =
        ((splitOnChar '\n' (replaceCRLF s)).filter
          (fun line => !line.isEmpty)).map trimEnd)
    ∧ (∀ s t : Str, compareOutputs s t .normalized = true ↔
        normalizeOutput s = normalizeOutput t)
    ∧ (∀ s : Str, compareOutputs s s .exact = true)
    ∧ compareOutputs "a \nb\n\n".data "a\nb".data .normalized = true
    ∧ compareOutputs "a\nb".data "a\nc".data .normalized = false := by
  refine ⟨fun s t => ?_, fun s => ?_, compareOutputs_normalized_iff,
    fun s => ?_, by decide, by decide⟩
  · simp [compareOutputs]
  · by_cases h : s = []
    · subst h; decide
    · simp [normalizeOutput, h]
  · simp [compareOutputs]

/-- Claim C10: `normalizeOutput` filters out empty lines before
right-trimming, so a line made only of (non-newline) whitespace is kept
and becomes an empty line of the normalized sequence; outputs differing
only by such a line therefore compare unequal in `normalized` mode,
while outputs differing by a genuinely empty line compare equal. -/
theorem normalized_whitespace_line_C10 :
    (∀ w : Str, w ≠ [] → (∀ c ∈ w, c = ' ' ∨ c = '\t') →
      normalizeOutput ('a' :: '\n' :: (w ++ '\n' :: ['b'])) = [['a'], [], ['b']]
      ∧ compareOutputs ('a' :: '\n' :: (w ++ '\n' :: ['b']))
          "a\nb".data .normalized = false)
    ∧ compareOutputs "a\n \nb".data "a\nb".data .normalized = false
    ∧ compareOutputs "a\n\nb".data "a\nb".data .normalized = true := by
  refine ⟨fun w hne hws => ?_, by decide, by decide⟩
  have hnocr : '\r' ∉ 'a' :: '\n' :: (w ++ '\n' :: ['b']) := by
    intro hmem
    simp only [List.mem_cons, List.mem_append] at hmem
    rcases hmem with h | h | h | h | h
    · exact absurd h (by decide)
    · exact absurd h (by decide)
    · rcases hws '\r' h with h2 | h2 <;> exact absurd h2 (by decide)
    · exact absurd h (by decide)
    · simp at h
  have hnonl : '\n' ∉ w := by
    intro hmem
    rcases hws '\n' hmem with h | h <;> exact absurd h (by decide)
  have hsplit : splitOnChar '\n' ('a' :: '\n' :: (w ++ '\n' :: ['b'])) =
      [['a'], w, ['b']] := by
    show splitOnCharAux '\n' [] _ = _
    rw [show splitOnCharAux '\n' [] ('a' :: '\n' :: (w ++ '\n' :: ['b'])) =
      splitOnCharAux '\n' ['a'] ('\n' :: (w ++ '\n' :: ['b'])) from by
        simp [splitOnCharAux]]
    rw [show splitOnCharAux '\n' ['a'] ('\n' :: (w ++ '\n' :: ['b'])) =
      ['a'] :: splitOnCharAux '\n' [] (w ++ '\n' :: ['b']) from by
        simp [splitOnCharAux]]
    rw [splitOnCharAux_chunk '\n' w hnonl [] ['b']]
    rfl
  have hnorm : normalizeOutput ('a' :: '\n' :: (w ++ '\n' :: ['b'])) =
      [['a'], [], ['b']] := by
    rw [show normalizeOutput ('a' :: '\n' :: (w ++ '\n' :: ['b'])) =
      (((splitOnChar '\n'
          (replaceCRLF ('a' :: '\n' :: (w ++ '\n' :: ['b'])))).filter
        (fun line => !line.isEmpty)).map trimEnd) from by
        simp [normalizeOutput]]
    rw [replaceCRLF_of_no_cr _ hnocr, hsplit]
    have hwkeep : (!w.isEmpty) = true := by
      cases w with
      | nil => exact absurd rfl hne
      | cons c cs => rfl
    simp only [List.filter, hwkeep, List.map]
    rw [trimEnd_all_ws w (fun c hc => by
      rcases hws c hc with h | h <;> simp [h, isJsWhitespace])]
    rfl
  refine ⟨hnorm, ?_⟩
  have : ¬ (compareOutputs ('a' :: '\n' :: (w ++ '\n' :: ['b']))
      "a\nb".data .normalized = true) := by
    rw [compareOutputs_normalized_iff, hnorm]
    intro hEq
    have := congrArg List.length hEq
    simp [normalizeOutput] at this
    exact absurd this (by decide)
  cases hb : compareOutputs ('a' :: '\n' :: (w ++ '\n' :: ['b']))
      "a\nb".data .normalized with
  | false => rfl
  | true => exact absurd hb this

/-- Claim C5: `formatData` classifies each top-level array element
independently — an array with an array first entry (a matrix) expands
to one line per inner row with cells space-joined and row order
preserved, an array with a string first entry splices its members in
verbatim as separate lines, and every other element (scalar, string,
empty array, flat non-string-first array) contributes exactly one line,
space-joining its members when it is an array; the collected lines are
newline-joined with no trailing newline, a non-array top-level value
formats to its single-line stringification, and `null`/`undefined`
format to the empty string. -/
theorem formatData_classification_C5 :
    (∀ (a rest : JList),
      itemLines (.arr (.cons (.arr a) rest)) =
        (jlistToList (.cons (.arr a) rest)).map (fun row => .str (formatLine row)))
    ∧ (∀ row : JList, formatLine (.arr row) = joinJList [' '] row)
    ∧ (∀ (s : Str) (rest : JList),
      itemLines (.arr (.cons (.str s) rest)) = jlistToList (.cons (.str s) rest))
    ∧ formatData (.arr (jlistOf [.arr (jlistOf [.str "l1".data, .str "l2".data])]))
        = "l1\nl2".data
    ∧ (∀ i : Int, itemLines (.num i) = [.str (intChars i)])
    ∧ (∀ s : Str, itemLines (.str s) = [.str s])
    ∧ itemLines (.arr .nil) = [.str []]
    ∧ (∀ (i : Int) (rest : JList), itemLines (.arr (.cons (.num i) rest)) =
        [.str (formatLine (.arr (.cons (.num i) rest)))])
    ∧ (∀ l : JList, formatData (.arr l) =
        joinValues ['\n'] (collectLines (jlistToList l)))
    ∧ (∀ items : List JValue, collectLines items = (items.map itemLines).flatten)
    ∧ (∀ i : Int, formatData (.num i) = intChars i)
    ∧ (∀ s : Str, formatData (.str s) = s)
    ∧ formatData .jnull = [] ∧ formatData .undef = [] :=
  ⟨fun _ _ => rfl, fun _ => rfl, fun _ _ => rfl, by decide, fun _ => rfl,
   fun _ => rfl, rfl, fun _ _ => rfl, fun _ => rfl, collectLines_eq_join,
   fun _ => rfl, fun _ => rfl, rfl, rfl⟩

/-- Claim C6: the empty-structure edge cases of `formatData`: an empty
array gives the empty string, one empty sub-array gives the empty
string, two empty sub-arrays give a single newline, and an empty row
between two pair rows gives an empty middle line. -/
theorem formatData_empty_edge_cases_C6 :
    formatData (.arr .nil) = []
    ∧ formatData (.arr (jlistOf [.arr .nil])) = []
    ∧ formatData (.arr (jlistOf [.arr .nil, .arr .nil])) = ['\n']
    ∧ formatData (.arr (jlistOf [.arr (jlistOf [.num 1, .num 2]), .arr .nil,
        .arr (jlistOf [.num 3, .num 4])])) = "1 2\n\n3 4".data := by
  refine ⟨rfl, rfl, rfl, by decide⟩

/-- Claim C9: the compilation fingerprint hashes the source text, the
compiler command, and the flags joined with no separator, so it is not
injective in the flag list: the distinct user flag lists
`['-O2','-Wall']` and `['-O2-Wall']` give identical unique profiles and
hence identical hashes under every digest, and `getExecutable` behaves
identically for the two — in particular a cached artifact is returned
for one whenever it is for the other, even though the flags differ. -/
theorem profile_flag_collision_C9 :
    (∀ (sha : Str → Str) (content cmd : Str),
      profileHash sha content cmd ["-O2".data, "-Wall".data] =
        profileHash sha content cmd ["-O2-Wall".data])
    ∧ (["-O2".data, "-Wall".data] ≠ (["-O2-Wall".data] : List Str))
    ∧ (∀ (sha : Str → Str) (isWin ok : Bool) (src content cmd : Str)
        (cacheFile : Option CacheMetadata) (existing : List Str),
      getExecutable sha isWin ok src content cmd ["-O2".data, "-Wall".data]
          cacheFile existing =
        getExecutable sha isWin ok src content cmd ["-O2-Wall".data]
          cacheFile existing) := by
  have hprofile : ∀ (sha : Str → Str) (content cmd : Str),
      profileHash sha content cmd ["-O2".data, "-Wall".data] =
        profileHash sha content cmd ["-O2-Wall".data] := by
    intro sha content cmd
    unfold profileHash uniqueProfile finalFlags
    rw [concatAll_append, concatAll_append]
    rfl
  refine ⟨hprofile, by decide, fun sha isWin ok src content cmd cacheFile existing => ?_⟩
  unfold getExecutable
  rw [hprofile sha content cmd]

/-- Claim C3, counterexample: with project root `/project`, the
configured output directory `/project-evil` resolves outside the
project root (the root's path segments are not a prefix of its own),
its basename is not forbidden, and its resolved path is not the root
itself — yet `cleanupOutputDirectory` proceeds to delete it, because
the code only checks that the resolved path starts with the project
root as a *string* prefix, which `/project-evil` does.  This refutes
the claim that cleanup is refused whenever the directory resolves
outside the project root. -/
theorem cleanup_outside_root_counterexample_C3 :
    insideRoot "/project".data (resolvePath "/project".data "/project-evil".data)
      = false
    ∧ basename "/project-evil".data ∉ FORBIDDEN_NAMES
    ∧ resolvePath "/project".data "/project-evil".data ≠ "/project".data
    ∧ cleanupOutputDirectory "/project".data "/project-evil".data =
        (.cleaned, ["/project-evil".data]) := by
  decide

/-- Claim C3, amended: the Maker refuses cleanup — with no deletion
performed — exactly when the directory's basename is forbidden
(`src`, `node_modules`, `.git`, `.`, `..`, `/`), or its resolved
absolute path equals the project root, or its resolved absolute path
does not start with the project root as a string prefix; only when all
checks pass is the directory removed, and a refusal stops the
generation run before compilation is attempted. -/
theorem cleanup_safety_C3 :
    ∀ projectRoot dir : Str,
    ((cleanupOutputDirectory projectRoot dir).1 = .cleaned ↔
      (basename dir ∉ FORBIDDEN_NAMES ∧
       resolvePath projectRoot dir ≠ projectRoot ∧
       List.isPrefixOf projectRoot (resolvePath projectRoot dir) = true))
    ∧ ((cleanupOutputDirectory projectRoot dir).2 =
        if (cleanupOutputDirectory projectRoot dir).1 = .cleaned then [dir]
        else [])
    ∧ (∀ compileResult : Option Str,
        generatePhase projectRoot dir compileResult = .stoppedAtCleanup ↔
          (cleanupOutputDirectory projectRoot dir).1 ≠ .cleaned) := by
  intro projectRoot dir
  by_cases h1 : basename dir ∈ FORBIDDEN_NAMES
  · refine ⟨?_, ?_, ?_⟩
    · simp [cleanupOutputDirectory, h1]
    · simp [cleanupOutputDirectory, h1]
    · intro compileResult
      simp [generatePhase, cleanupOutputDirectory, h1]
  · by_cases h2 : resolvePath projectRoot dir = projectRoot
    · refine ⟨?_, ?_, ?_⟩
      · simp [cleanupOutputDirectory, h1, h2]
      · simp [cleanupOutputDirectory, h1, h2]
      · intro compileResult
        simp [generatePhase, cleanupOutputDirectory, h1, h2]
    · by_cases h3 : List.isPrefixOf projectRoot (resolvePath projectRoot dir)
        = true
      · refine ⟨?_, ?_, ?_⟩
        · simp [cleanupOutputDirectory, h1, h2, h3]
        · simp [cleanupOutputDirectory, h1, h2, h3]
        · intro compileResult
          cases compileResult <;>
            simp [generatePhase, cleanupOutputDirectory, h1, h2, h3]
      · refine ⟨?_, ?_, ?_⟩
        · simp [cleanupOutputDirectory, h1, h2, h3]
        · simp [cleanupOutputDirectory, h1, h2, h3]
        · intro compileResult
          simp [generatePhase, cleanupOutputDirectory, h1, h2, h3]

/-- Claim C1, counterexample: the claim's final conclusion — changing a
single source byte yields "an artifact with a different embedded
fingerprint prefix" — does not hold of the code, because the artifact
name embeds only an 8-character truncation of the digest.  Under the
injective (collision-free) digest that prepends eight `0` characters to
its input, the one-byte source change `ab` → `xb` changes the
fingerprint, so the previously hitting cache entry misses and a
recompilation occurs — but the new artifact path is byte-identical to
the old one, since both fingerprints share their first 8 characters. -/
theorem getExecutable_same_prefix_counterexample_C1 :
    profileHash (fun s => "00000000".data ++ s) "xb".data "g++".data [] ≠
      profileHash (fun s => "00000000".data ++ s) "ab".data "g++".data []
    ∧ executablePathFor false "std.cpp".data
        (profileHash (fun s => "00000000".data ++ s) "xb".data "g++".data []) =
      executablePathFor false "std.cpp".data
        (profileHash (fun s => "00000000".data ++ s) "ab".data "g++".data [])
    ∧ getExecutable (fun s => "00000000".data ++ s) false true
        "std.cpp".data "xb".data "g++".data []
        (some [(cacheKey "std.cpp".data "g++".data,
          ⟨profileHash (fun s => "00000000".data ++ s) "ab".data "g++".data [],
           executablePathFor false "std.cpp".data
             (profileHash (fun s => "00000000".data ++ s) "ab".data
               "g++".data [])⟩)])
        [executablePathFor false "std.cpp".data
          (profileHash (fun s => "00000000".data ++ s) "ab".data
            "g++".data [])] =
      .recompiled
        (executablePathFor false "std.cpp".data
          (profileHash (fun s => "00000000".data ++ s) "ab".data
            "g++".data []))
        (insertCache
          [(cacheKey "std.cpp".data "g++".data,
            ⟨profileHash (fun s => "00000000".data ++ s) "ab".data
               "g++".data [],
             executablePathFor false "std.cpp".data
               (profileHash (fun s => "00000000".data ++ s) "ab".data
                 "g++".data [])⟩)]
          (cacheKey "std.cpp".data "g++".data)
          ⟨profileHash (fun s => "00000000".data ++ s) "xb".data "g++".data [],
           executablePathFor false "std.cpp".data
             (profileHash (fun s => "00000000".data ++ s) "xb".data
               "g++".data [])⟩) := by
  decide

/-- Claim C1, amended: `getExecutable` returns the cached artifact
without compiling exactly when the persisted cache map binds the key
`sourceFile-compilerCommand` to an entry whose stored hash equals the
fingerprint recomputed (by the digest `sha`) from the current source
bytes, the compiler command and the concatenated flags, and whose
artifact still exists on disk; in every other case (missing or corrupt
cache file, missing entry, hash mismatch, vanished artifact — all
non-fatal) it recompiles and writes a new cache entry whose artifact
name embeds the first 8 characters of the new fingerprint.  Changing
any single byte of the source, of the compiler command, or of any flag
changes the fingerprint (for an injective digest), so a previously
hitting cache entry misses and a recompilation is performed whose
artifact embeds the new fingerprint's 8-character prefix; the artifact
name differs from the old one exactly when the two fingerprints differ
in their first 8 characters (an 8-character truncation of distinct
digests may coincide, as the counterexample shows). -/
theorem getExecutable_cache_C1 :
    ∀ (sha : Str → Str) (isWin : Bool) (src content cmd : Str)
      (uf : List Str) (cacheFile : Option CacheMetadata) (existing : List Str),
    ((∀ (cache : CacheMetadata) (entry : CacheEntry) (ok : Bool),
        cacheFile = some cache →
        lookupCache cache (cacheKey src cmd) = some entry →
        entry.hash = profileHash sha content cmd uf →
        entry.executablePath ∈ existing →
        getExecutable sha isWin ok src content cmd uf cacheFile existing =
          .cacheHit entry.executablePath)
    ∧ (∀ (ok : Bool) (p : Str),
        getExecutable sha isWin ok src content cmd uf cacheFile existing =
          .cacheHit p →
        ∃ cache entry, cacheFile = some cache ∧
          lookupCache cache (cacheKey src cmd) = some entry ∧
          entry.hash = profileHash sha content cmd uf ∧
          entry.executablePath = p ∧ p ∈ existing)
    ∧ (findCachedExecutable cacheFile existing (cacheKey src cmd)
          (profileHash sha content cmd uf) = none ↔
        cacheFile = none ∨
        ∃ cache, cacheFile = some cache ∧
          (lookupCache cache (cacheKey src cmd) = none ∨
           ∃ entry, lookupCache cache (cacheKey src cmd) = some entry ∧
             (entry.hash ≠ profileHash sha content cmd uf ∨
              entry.executablePath ∉ existing)))
    ∧ (findCachedExecutable cacheFile existing (cacheKey src cmd)
          (profileHash sha content cmd uf) = none →
        getExecutable sha isWin true src content cmd uf cacheFile existing =
          .recompiled
            (executablePathFor isWin src (profileHash sha content cmd uf))
            (insertCache (cacheFile.getD []) (cacheKey src cmd)
              ⟨profileHash sha content cmd uf,
               executablePathFor isWin src (profileHash sha content cmd uf)⟩)
        ∧ lookupCache
            (insertCache (cacheFile.getD []) (cacheKey src cmd)
              ⟨profileHash sha content cmd uf,
               executablePathFor isWin src (profileHash sha content cmd uf)⟩)
            (cacheKey src cmd) =
          some ⟨profileHash sha content cmd uf,
            executablePathFor isWin src (profileHash sha content cmd uf)⟩)
    ∧ (Function.Injective sha →
        (∀ content2 : Str, content2 ≠ content →
          profileHash sha content2 cmd uf ≠ profileHash sha content cmd uf)
        ∧ (∀ cmd2 : Str, cmd2.length = cmd.length → cmd2 ≠ cmd →
          profileHash sha content cmd2 uf ≠ profileHash sha content cmd uf)
        ∧ (∀ (A B : List Str) (f f2 : Str), f2 ≠ f →
          profileHash sha content cmd (A ++ f2 :: B) ≠
            profileHash sha content cmd (A ++ f :: B)))
    ∧ (∀ (cache : CacheMetadata) (entry : CacheEntry) (content2 : Str),
        Function.Injective sha → content2 ≠ content →
        cacheFile = some cache →
        lookupCache cache (cacheKey src cmd) = some entry →
        entry.hash = profileHash sha content cmd uf →
        getExecutable sha isWin true src content2 cmd uf cacheFile existing =
          .recompiled
            (executablePathFor isWin src (profileHash sha content2 cmd uf))
            (insertCache cache (cacheKey src cmd)
              ⟨profileHash sha content2 cmd uf,
               executablePathFor isWin src (profileHash sha content2 cmd uf)⟩))
    ∧ (∀ h1 h2 : Str, h1.take 8 ≠ h2.take 8 →
        executablePathFor isWin src h1 ≠ executablePathFor isWin src h2)
    ∧ (∀ h1 h2 : Str, h1.take 8 = h2.take 8 →
        executablePathFor isWin src h1 = executablePathFor isWin src h2)) := by
  intro sha isWin src content cmd uf cacheFile existing
  refine ⟨?hit, ?hitInv, findCachedExecutable_eq_none_iff _ _ _ _, ?miss,
    ?sens, ?stale, fun h1 h2 hne =>
      executablePathFor_ne_of_take8_ne isWin src h1 h2 hne,
    fun h1 h2 heq => ?prefEq⟩
  case hit =>
    intro cache entry ok hcf hlk hh hmem
    have hfind : findCachedExecutable cacheFile existing (cacheKey src cmd)
        (profileHash sha content cmd uf) = some entry.executablePath :=
      (findCachedExecutable_eq_some_iff _ _ _ _ _).mpr
        ⟨cache, entry, hcf, hlk, hh, rfl, hmem⟩
    rw [getExecutable_def, hfind]
  case hitInv =>
    intro ok p hget
    rw [getExecutable_def] at hget
    cases hfind : findCachedExecutable cacheFile existing (cacheKey src cmd)
        (profileHash sha content cmd uf) with
    | some q =>
      rw [hfind] at hget
      have hq : q = p := by
        injection hget
      obtain ⟨cache, entry, hcf, hlk, hh, hp, hmem⟩ :=
        (findCachedExecutable_eq_some_iff _ _ _ _ _).mp hfind
      exact ⟨cache, entry, hcf, hlk, hh, hp.trans hq, hq ▸ hmem⟩
    | none =>
      rw [hfind] at hget
      cases ok with
      | true => exact CompileOutcome.noConfusion hget
      | false => exact CompileOutcome.noConfusion hget
  case miss =>
    intro hfind
    constructor
    · rw [getExecutable_def, hfind]
      rfl
    · exact lookupCache_insertCache _ _ _
  case sens =>
    intro hinj
    exact ⟨fun content2 hne =>
        profileHash_ne_of_content_ne sha hinj content2 content cmd uf hne,
      fun cmd2 hlen hne =>
        profileHash_ne_of_cmd_ne sha hinj content cmd2 cmd uf hlen hne,
      fun A B f f2 hne =>
        profileHash_ne_of_flag_ne sha hinj content cmd A B f f2 hne⟩
  case stale =>
    intro cache entry content2 hinj hne hcf hlk hh
    have hmiss : findCachedExecutable cacheFile existing (cacheKey src cmd)
        (profileHash sha content2 cmd uf) = none := by
      rw [findCachedExecutable_eq_none_iff]
      refine Or.inr ⟨cache, hcf, Or.inr ⟨entry, hlk, Or.inl ?_⟩⟩
      rw [hh]
      exact (profileHash_ne_of_content_ne sha hinj content2 content cmd uf
        hne).symm
    rw [getExecutable_def, hmiss, hcf]
    rfl
  case prefEq =>
    unfold executablePathFor
    rw [heq]

/-- Claim C1, witness: concrete cache-hit, cache-miss, and
byte-change instances of `getExecutable_cache_C1`, with the identity
digest (injective) at concrete strings. -/
theorem getExecutable_cache_C1_witness :
    (getExecutable (fun s => s) false true "std.cpp".data "ab".data
        "g++".data []
        (some [(cacheKey "std.cpp".data "g++".data,
          ⟨profileHash (fun s => s) "ab".data "g++".data [], "exe".data⟩)])
        ["exe".data] = .cacheHit "exe".data)
    ∧ (getExecutable (fun s => s) false true "std.cpp".data "ab".data
        "g++".data [] none [] =
      .recompiled
        (executablePathFor false "std.cpp".data
          (profileHash (fun s => s) "ab".data "g++".data []))
        (insertCache [] (cacheKey "std.cpp".data "g++".data)
          ⟨profileHash (fun s => s) "ab".data "g++".data [],
           executablePathFor false "std.cpp".data
             (profileHash (fun s => s) "ab".data "g++".data [])⟩))
    ∧ profileHash (fun s => s) "xb".data "g++".data [] ≠
        profileHash (fun s => s) "ab".data "g++".data []
    ∧ (getExecutable (fun s => s) false true "std.cpp".data "xb".data
        "g++".data []
        (some [(cacheKey "std.cpp".data "g++".data,
          ⟨profileHash (fun s => s) "ab".data "g++".data [], "exe".data⟩)])
        ["exe".data] =
      .recompiled
        (executablePathFor false "std.cpp".data
          (profileHash (fun s => s) "xb".data "g++".data []))
        (insertCache
          [(cacheKey "std.cpp".data "g++".data,
            ⟨profileHash (fun s => s) "ab".data "g++".data [], "exe".data⟩)]
          (cacheKey "std.cpp".data "g++".data)
          ⟨profileHash (fun s => s) "xb".data "g++".data [],
           executablePathFor false "std.cpp".data
             (profileHash (fun s => s) "xb".data "g++".data [])⟩)) := by
  have hC1 := getExecutable_cache_C1 (fun s => s) false "std.cpp".data
    "ab".data "g++".data []
    (some [(cacheKey "std.cpp".data "g++".data,
      ⟨profileHash (fun s => s) "ab".data "g++".data [], "exe".data⟩)])
    ["exe".data]
  have hC1miss := getExecutable_cache_C1 (fun s => s) false "std.cpp".data
    "ab".data "g++".data [] none []
  refine ⟨?_, ?_, ?_, ?_⟩
  · exact hC1.1 _ ⟨profileHash (fun s => s) "ab".data "g++".data [],
      "exe".data⟩ true rfl (by decide) rfl (by decide)
  · exact (hC1miss.2.2.2.1 rfl).1
  · exact (hC1.2.2.2.2.1 (fun a b h => h)).1 "xb".data (by decide)
  · exact hC1.2.2.2.2.2.1 _
      ⟨profileHash (fun s => s) "ab".data "g++".data [], "exe".data⟩
      "xb".data (fun a b h => h) (by decide) rfl (by decide) rfl


/-- Claim C10, witness: the single-space line between `a` and `b`
instantiates the whitespace-only-line family. -/
theorem normalized_whitespace_line_C10_witness :
    normalizeOutput ('a' :: '\n' :: (([' '] : Str) ++ '\n' :: ['b'])) =
      [['a'], [], ['b']]
    ∧ compareOutputs ('a' :: '\n' :: (([' '] : Str) ++ '\n' :: ['b']))
        "a\nb".data .normalized = false :=
  normalized_whitespace_line_C10.1 [' '] (by decide) (by decide)

/-- Claim C2: if every iteration before `k` passes and at iteration
`k ≤ n` both programs succeed but their outputs compare unequal, then
`run(n)` reports a wrong answer at exactly iteration `k` with that
iteration's data, records program invocations only for iterations up to
`k`, and its result is unchanged under any generator agreeing up to `k`
(the generator is never consulted past the halt); and if every
iteration in `1..n` runs both programs successfully with equal outputs,
`run(n)` reports overall success. -/
theorem checkerRun_first_failure_C2 :
    ∀ (env : CheckerEnv) (tm : Nat) (mode : CompareMode) (n : Nat),
    ((∀ (k : Nat) (s m : Str), 1 ≤ k → k ≤ n →
      (∀ i, 1 ≤ i → i < k → (runStep env tm mode i).1 = none) →
      env.std (formatData (env.gen k)) = .ok s →
      env.target (formatData (env.gen k)) = .ok m →
      compareOutputs s m mode = false →
      ((checkerRun env tm mode n).1 =
          .failed k .WA ⟨formatData (env.gen k), s, m⟩
        ∧ (∀ inv ∈ (checkerRun env tm mode n).2, inv.iter ≤ k)
        ∧ (∀ env2 : CheckerEnv, env2.std = env.std →
            env2.target = env.target →
            (∀ j, j ≤ k → env2.gen j = env.gen j) →
            checkerRun env2 tm mode n = checkerRun env tm mode n)))
    ∧ ((∀ i, 1 ≤ i → i ≤ n →
        ∃ s m, env.std (formatData (env.gen i)) = .ok s ∧
          env.target (formatData (env.gen i)) = .ok m ∧
          compareOutputs s m mode = true) →
      (checkerRun env tm mode n).1 = .allPassed)) := by
  intro env tm mode n
  constructor
  · intro k s m hk1 hkn hpass hs hm hcmp
    have hstepk : (runStep env tm mode k).1 =
        some (.WA, ⟨formatData (env.gen k), s, m⟩) := by
      simp only [runStep, hs, hm, hcmp]
      simp
    have hhalt := runFrom_halt env tm mode n 1 k .WA
      ⟨formatData (env.gen k), s, m⟩ hk1 (by omega) hpass hstepk
    refine ⟨hhalt.1, hhalt.2, ?_⟩
    intro env2 hstd htg hgen
    exact runFrom_congr_upto env env2 tm mode hstd htg n 1 k .WA
      ⟨formatData (env.gen k), s, m⟩ hk1 hgen hpass hstepk
  · intro hall
    apply runFrom_all_pass
    intro j hj1 hj2
    obtain ⟨s, m, hs, hm, hcmp⟩ := hall j hj1 (by omega)
    simp only [runStep, hs, hm, hcmp]
    simp

/-- Claim C2, witness: a target that always answers `b` against a std
that always answers `a` fails with a wrong answer at iteration 1 of 2;
a byte-identical pair passes 3 of 3 iterations. -/
theorem checkerRun_first_failure_C2_witness :
    (checkerRun ⟨fun _ => .jnull, fun _ => .ok "a".data,
        fun _ => .ok "b".data⟩ 100 .exact 2).1 =
      .failed 1 .WA ⟨formatData .jnull, "a".data, "b".data⟩
    ∧ (checkerRun ⟨fun _ => .jnull, fun _ => .ok "a".data,
        fun _ => .ok "a".data⟩ 100 .exact 3).1 = .allPassed := by
  have h := checkerRun_first_failure_C2
    ⟨fun _ => .jnull, fun _ => .ok "a".data, fun _ => .ok "b".data⟩
    100 .exact 2
  have h2 := checkerRun_first_failure_C2
    ⟨fun _ => .jnull, fun _ => .ok "a".data, fun _ => .ok "a".data⟩
    100 .exact 3
  refine ⟨(h.1 1 "a".data "b".data le_rfl (by omega)
      (fun i hi hik => absurd hik (Nat.not_lt.mpr hi)) rfl rfl
      (by decide)).1,
    h2.2 (fun i _ _ => ⟨"a".data, "a".data, rfl, rfl, by decide⟩)⟩

/-- Claim C7: the timeout defaults to 5000 ms and is settable only to
positive values; in the checking loop every std invocation carries no
timeout option while every target invocation carries exactly the
configured timeout; Maker case runs carry no timeout option; and a
target timeout is classified `TLE`, distinctly from a nonzero-exit
crash, which is classified `RE`. -/
theorem checker_timeout_policy_C7 :
    checkerInit.timeoutMs = 5000
    ∧ (∀ (st : CheckerState) (ms : Int), 0 < ms →
        (checkerSetTimeout st ms).timeoutMs = ms.toNat)
    ∧ (∀ (st : CheckerState) (ms : Int), ms ≤ 0 →
        checkerSetTimeout st ms = st)
    ∧ (∀ (env : CheckerEnv) (tm : Nat) (mode : CompareMode) (n : Nat),
        ∀ inv ∈ (checkerRun env tm mode n).2,
        (inv.prog = .std → inv.timeoutOpt = none) ∧
        (inv.prog = .target → inv.timeoutOpt = some tm))
    ∧ (∀ (exe : Str) (v : JValue),
        (makerCaseInvocation exe v).timeoutOpt = none)
    ∧ (∀ (env : CheckerEnv) (tm : Nat) (mode : CompareMode) (i : Nat)
        (s : Str),
        env.std (formatData (env.gen i)) = .ok s →
        env.target (formatData (env.gen i)) = .timedOut →
        (runStep env tm mode i).1 =
          some (.TLE, ⟨formatData (env.gen i), s,
            "[Time Limit Exceeded]".data⟩))
    ∧ (∀ (env : CheckerEnv) (tm : Nat) (mode : CompareMode) (i : Nat)
        (s e : Str),
        env.std (formatData (env.gen i)) = .ok s →
        env.target (formatData (env.gen i)) = .crash e →
        (runStep env tm mode i).1 =
          some (.RE, ⟨formatData (env.gen i), s,
            if e = [] then "[No stderr]".data else e⟩))
    ∧ FailKind.TLE ≠ FailKind.RE := by
  refine ⟨rfl, ?_, ?_, ?_, fun _ _ => rfl, ?_, ?_, by decide⟩
  · intro st ms hms
    unfold checkerSetTimeout
    rw [if_pos hms]
  · intro st ms hms
    unfold checkerSetTimeout
    rw [if_neg (not_lt.mpr hms)]
  · intro env tm mode n inv hmem
    exact runFrom_invs_timeout env tm mode n 1 inv hmem
  · intro env tm mode i s hs ht
    simp only [runStep, hs, ht]
  · intro env tm mode i s e hs ht
    simp only [runStep, hs, ht]

/-- Claim C7, witness: the setter and the loop classifications at
concrete inputs. -/
theorem checker_timeout_policy_C7_witness :
    (checkerSetTimeout checkerInit 250).timeoutMs = (250 : Int).toNat
    ∧ checkerSetTimeout checkerInit (-3) = checkerInit
    ∧ (runStep ⟨fun _ => .jnull, fun _ => .ok [], fun _ => .timedOut⟩
        100 .normalized 1).1 =
      some (.TLE, ⟨formatData .jnull, [], "[Time Limit Exceeded]".data⟩)
    ∧ (runStep ⟨fun _ => .jnull, fun _ => .ok [], fun _ => .crash []⟩
        100 .normalized 1).1 =
      some (.RE, ⟨formatData .jnull, [],
        if ([] : Str) = [] then "[No stderr]".data else []⟩)
    ∧ (∀ inv ∈ (checkerRun
        ⟨fun _ => .jnull, fun _ => .ok [], fun _ => .timedOut⟩
        100 .normalized 1).2,
        (inv.prog = .std → inv.timeoutOpt = none) ∧
        (inv.prog = .target → inv.timeoutOpt = some 100)) := by
  have h := checker_timeout_policy_C7
  exact ⟨h.2.1 checkerInit 250 (by decide),
    h.2.2.1 checkerInit (-3) (by decide),
    h.2.2.2.2.2.1 ⟨fun _ => .jnull, fun _ => .ok [], fun _ => .timedOut⟩
      100 .normalized 1 [] rfl rfl,
    h.2.2.2.2.2.2.1 ⟨fun _ => .jnull, fun _ => .ok [], fun _ => .crash []⟩
      100 .normalized 1 [] [] rfl rfl,
    h.2.2.2.1 ⟨fun _ => .jnull, fun _ => .ok [], fun _ => .timedOut⟩
      100 .normalized 1⟩

/-- Claim C8: whenever the checker halts on a failure of any kind, the
three writes of `reportFailure` target the same three fixed filenames
(in order: input, std output, target output/error), the final content
of each file equals the corresponding artifact text regardless of any
prior file content (full overwrite, never an append), and the artifacts
are exactly the failing iteration's data: the input is that iteration's
formatted generator value and the triple is what that iteration's step
produced. -/
theorem checker_artifact_persistence_C8 :
    ∀ (env : CheckerEnv) (tm : Nat) (mode : CompareMode) (count k : Nat)
      (kind : FailKind) (art : Artifacts),
    (checkerRun env tm mode count).1 = .failed k kind art →
    ((reportFailureWrites art).map Prod.fst =
        [failArtifactIn, failArtifactStd, failArtifactMy]
    ∧ (∀ prior : Str → Str,
        applyWrites prior (reportFailureWrites art) failArtifactIn =
          art.input ∧
        applyWrites prior (reportFailureWrites art) failArtifactStd =
          art.stdText ∧
        applyWrites prior (reportFailureWrites art) failArtifactMy =
          art.myText)
    ∧ art.input = formatData (env.gen k)
    ∧ (runStep env tm mode k).1 = some (kind, art)
    ∧ 1 ≤ k ∧ k ≤ count) := by
  intro env tm mode count k kind art hrun
  obtain ⟨h1, h2, h3⟩ := runFrom_failed_inv env tm mode count 1 k kind art hrun
  refine ⟨rfl, ?_, runStep_some_input env tm mode k kind art h3, h3, h1,
    by omega⟩
  intro prior
  refine ⟨?_, ?_, ?_⟩
  · show (if failArtifactIn = failArtifactMy then art.myText
      else if failArtifactIn = failArtifactStd then art.stdText
      else if failArtifactIn = failArtifactIn then art.input
      else prior failArtifactIn) = art.input
    rw [if_neg (by decide), if_neg (by decide), if_pos rfl]
  · show (if failArtifactStd = failArtifactMy then art.myText
      else if failArtifactStd = failArtifactStd then art.stdText
      else if failArtifactStd = failArtifactIn then art.input
      else prior failArtifactStd) = art.stdText
    rw [if_neg (by decide), if_pos rfl]
  · show (if failArtifactMy = failArtifactMy then art.myText
      else if failArtifactMy = failArtifactStd then art.stdText
      else if failArtifactMy = failArtifactIn then art.input
      else prior failArtifactMy) = art.myText
    rw [if_pos rfl]

/-- Claim C8, witness: a run whose target crashes at iteration 1
persists exactly that iteration's artifacts over an empty filesystem. -/
theorem checker_artifact_persistence_C8_witness :
    (reportFailureWrites (⟨[], "a".data, "boom".data⟩ : Artifacts)).map
        Prod.fst = [failArtifactIn, failArtifactStd, failArtifactMy]
    ∧ applyWrites (fun _ => [])
        (reportFailureWrites ⟨[], "a".data, "boom".data⟩) failArtifactIn = []
    ∧ applyWrites (fun _ => [])
        (reportFailureWrites ⟨[], "a".data, "boom".data⟩) failArtifactStd =
      "a".data
    ∧ applyWrites (fun _ => [])
        (reportFailureWrites ⟨[], "a".data, "boom".data⟩) failArtifactMy =
      "boom".data := by
  have h := checker_artifact_persistence_C8
    ⟨fun _ => .jnull, fun _ => .ok "a".data, fun _ => .crash "boom".data⟩
    100 .normalized 1 1 .RE ⟨[], "a".data, "boom".data⟩ (by decide)
  exact ⟨h.1, (h.2.1 (fun _ => [])).1, (h.2.1 (fun _ => [])).2.1,
    (h.2.1 (fun _ => [])).2.2⟩

end Genesis
